import Mathlib

/-!
Verification of the `kaigan` byte-encoding adapter types.

The repository provides three families of borsh wrapper types:

* `U8PrefixString`, `U16PrefixString`, `U64PrefixString`
  (`src/types/prefix_string.rs`): a string whose wire form is an explicit
  little-endian length prefix followed by the raw UTF-8 bytes;
* `U8PrefixVec<T>` .. `U64PrefixVec<T>` (`src/types/prefix_vec.rs`): a
  vector whose wire form is an explicit little-endian count prefix
  followed by each element's encoding;
* `RemainderStr` (`src/types/remainder_str.rs`): a string with no prefix
  that consumes the remainder of the stream on decode.

The shallow embedding below models byte streams as `List Nat` (each entry
a byte value), Rust `String` values as their UTF-8 byte lists (for the
prefix family) or code-point lists (for the remainder family), writers as
accumulating sinks, and the two I/O error situations that arise
(`InvalidData` from the adapters themselves, `UnexpectedEof` from
`read_exact` on a short stream).
-/

namespace Kaigan

/-- The two I/O error kinds the embedded operations produce: the adapters
construct `ErrorKind::InvalidData` errors themselves, and a short
`read_exact` surfaces as `ErrorKind::UnexpectedEof`. -/
inductive IoError where
  | invalidData
  | unexpectedEof
deriving DecidableEq, Repr

/-- Little-endian byte encoding of `n` into exactly `w` bytes, as borsh
serializes a fixed-width unsigned integer (the enclosing `as $prefix_type`
cast reduces `n` modulo `2 ^ (8 * w)`, which the `% 256` steps realize). -/
def leBytes : Nat → Nat → List Nat
  | 0, _ => []
  | w + 1, n => n % 256 :: leBytes w (n / 256)

/-- Little-endian byte decoding, as borsh deserializes a fixed-width
unsigned integer from its buffer. -/
def leDecode : List Nat → Nat
  | [] => 0
  | b :: rest => b + 256 * leDecode rest

/-- Model of `reader.read_exact(&mut buffer)` for a `buffer` of length `n`
over a byte-list stream: succeeds with the first `n` bytes and the rest of
the stream, or fails with `UnexpectedEof` when fewer than `n` bytes
remain. -/
def readExact (n : Nat) (input : List Nat) : Except IoError (List Nat × List Nat) :=
  if n ≤ input.length then .ok (input.take n, input.drop n)
  else .error .unexpectedEof

/-- Model of `reader.read(&mut buffer)` for a `buffer` of length `n` over
a byte-list stream: returns the bytes actually read (at most `n`, fewer
only at end of stream) and the rest of the stream. -/
def readUpTo (n : Nat) (input : List Nat) : List Nat × List Nat :=
  (input.take n, input.drop n)

/-- Is `b` a UTF-8 continuation byte (`0x80 ..= 0xBF`)? -/
def utf8Cont (b : Nat) : Bool :=
  0x80 ≤ b && b ≤ 0xBF

/-- Model of the success condition of `String::from_utf8`: the byte list
is well-formed UTF-8 (shortest forms only, surrogate code points
excluded), per RFC 3629 as implemented by Rust's standard library. -/
def utf8Valid : List Nat → Bool
  | [] => true
  | b :: rest =>
    if b ≤ 0x7F then
      utf8Valid rest
    else if 0xC2 ≤ b && b ≤ 0xDF then
      match rest with
      | b1 :: rest1 => utf8Cont b1 && utf8Valid rest1
      | [] => false
    else if b = 0xE0 then
      match rest with
      | b1 :: b2 :: rest2 =>
        (0xA0 ≤ b1 && b1 ≤ 0xBF) && utf8Cont b2 && utf8Valid rest2
      | _ => false
    else if 0xE1 ≤ b && b ≤ 0xEC then
      match rest with
      | b1 :: b2 :: rest2 => utf8Cont b1 && utf8Cont b2 && utf8Valid rest2
      | _ => false
    else if b = 0xED then
      match rest with
      | b1 :: b2 :: rest2 =>
        (0x80 ≤ b1 && b1 ≤ 0x9F) && utf8Cont b2 && utf8Valid rest2
      | _ => false
    else if 0xEE ≤ b && b ≤ 0xEF then
      match rest with
      | b1 :: b2 :: rest2 => utf8Cont b1 && utf8Cont b2 && utf8Valid rest2
      | _ => false
    else if b = 0xF0 then
      match rest with
      | b1 :: b2 :: b3 :: rest3 =>
        (0x90 ≤ b1 && b1 ≤ 0xBF) && utf8Cont b2 && utf8Cont b3 && utf8Valid rest3
      | _ => false
    else if 0xF1 ≤ b && b ≤ 0xF3 then
      match rest with
      | b1 :: b2 :: b3 :: rest3 =>
        utf8Cont b1 && utf8Cont b2 && utf8Cont b3 && utf8Valid rest3
      | _ => false
    else if b = 0xF4 then
      match rest with
      | b1 :: b2 :: b3 :: rest3 =>
        (0x80 ≤ b1 && b1 ≤ 0x8F) && utf8Cont b2 && utf8Cont b3 && utf8Valid rest3
      | _ => false
    else
      false

/-- UTF-8 encoding of one Unicode code point, as `str::as_bytes` exposes
it for each `char` of a Rust `String`. -/
def utf8EncodeChar (c : Nat) : List Nat :=
  if c < 0x80 then [c]
  else if c < 0x800 then
    [0xC0 + c / 64, 0x80 + c % 64]
  else if c < 0x10000 then
    [0xE0 + c / 4096, 0x80 + c / 64 % 64, 0x80 + c % 64]
  else
    [0xF0 + c / 262144, 0x80 + c / 4096 % 64, 0x80 + c / 64 % 64, 0x80 + c % 64]

namespace PrefixString

/-- The prefix widths, in bits, for which `prefix_string_types!` is
instantiated: `(U8PrefixString, u8), (U16PrefixString, u16),
(U64PrefixString, u64)`. -/
def instantiatedWidths : List Nat := [8, 16, 64]

/-- The corresponding prefix sizes in bytes
(`std::mem::size_of::<$prefix_type>()`). -/
def widthBytes : List Nat := [1, 2, 8]

/-- Embedding of `BorshSerialize::serialize` for the `PrefixString`
family, with the prefix type abstracted by its byte size `pw`. The Rust
`String` is represented by its UTF-8 byte list `s`; the writer is a sink
that accepts every write. Returns the call's result together with the
sink's final contents. -/
def serialize (pw : Nat) (s : List Nat) (sink : List Nat) :
    Except IoError Unit × List Nat :=
  if s.length > 2 ^ (8 * pw) - 1 then
    (.error .invalidData, sink)
  else
    (.ok (), sink ++ leBytes pw s.length ++ s)

/-- Embedding of `BorshDeserialize::deserialize_reader` for the
`PrefixString` family: `read_exact` the `pw`-byte prefix, decode it as a
little-endian length, `read_exact` that many bytes, and accept them only
when they are valid UTF-8. Returns the decoded string's bytes and the
unconsumed remainder of the stream. -/
def deserialize_reader (pw : Nat) (input : List Nat) :
    Except IoError (List Nat × List Nat) := do
  let (pb, r1) ← readExact pw input
  let length := leDecode pb
  let (sb, r2) ← readExact length r1
  if utf8Valid sb then
    .ok (sb, r2)
  else
    .error .invalidData

end PrefixString

namespace PrefixVec

/-- The prefix widths, in bits, for which `prefix_vec_types!` is
instantiated: `(U8PrefixVec, u8), (U16PrefixVec, u16),
(U32PrefixVec, u32), (U64PrefixVec, u64)`. -/
def instantiatedWidths : List Nat := [8, 16, 32, 64]

/-- The corresponding prefix sizes in bytes. -/
def widthBytes : List Nat := [1, 2, 4, 8]

/-- The per-element encoded sizes (`std::mem::size_of::<T>()`) of the
fixed-width scalar element types `u8`, `u16`, `u32`, `u64` the claims
restrict the element type to. An element value is modelled as a `Nat`
below `2 ^ (8 * es)` whose encoding is its `es`-byte little-endian
form. -/
def scalarElemSizes : List Nat := [1, 2, 4, 8]

/-- Embedding of the element-reading `while` loop of
`deserialize_reader`: with `k` elements still wanted, `read` into the
`es`-byte staging buffer; a zero-byte read breaks out of the loop, a full
read deserializes one element from the buffer and continues, and any
other read count is an `InvalidData` error. Returns the elements decoded
and the unconsumed remainder of the stream. -/
def readItems (es : Nat) : Nat → List Nat → Except IoError (List Nat × List Nat)
  | 0, input => .ok ([], input)
  | k + 1, input =>
    let (chunk, rest) := readUpTo es input
    if chunk.length = 0 then
      .ok ([], input)
    else if chunk.length = es then
      match readItems es k rest with
      | .ok (items, r) => .ok (leDecode chunk :: items, r)
      | .error e => .error e
    else
      .error .invalidData

/-- Embedding of `BorshDeserialize::deserialize_reader` for the
`PrefixVec` family: `read_exact` the `pw`-byte count prefix, decode it as
a little-endian count, run the element loop, and fail with `InvalidData`
unless exactly that many elements were produced. -/
def deserialize_reader (pw es : Nat) (input : List Nat) :
    Except IoError (List Nat × List Nat) := do
  let (pb, r1) ← readExact pw input
  let length := leDecode pb
  let (items, rest) ← readItems es length r1
  if items.length = length then
    .ok (items, rest)
  else
    .error .invalidData

/-- Embedding of `BorshSerialize::serialize` for the `PrefixVec` family:
overflow check of the element count against the prefix type's maximum,
then the little-endian count prefix, then each element's `es`-byte
little-endian encoding in order. -/
def serialize (pw es : Nat) (v : List Nat) (sink : List Nat) :
    Except IoError Unit × List Nat :=
  if v.length > 2 ^ (8 * pw) - 1 then
    (.error .invalidData, sink)
  else
    (.ok (), sink ++ leBytes pw v.length ++ (v.map (leBytes es)).flatten)

end PrefixVec

namespace RemainderStr

/-- Embedding of `BorshSerialize::serialize` for `RemainderStr`: every
byte of the inner string's UTF-8 representation is written individually,
with no prefix. The string is represented by its code-point list `s`. -/
def serialize (s : List Nat) (sink : List Nat) :
    Except IoError Unit × List Nat :=
  (.ok (), sink ++ (s.map utf8EncodeChar).flatten)

/-- The accumulation of the `while let Ok(c) = u8::deserialize_reader(..)`
loop over a stream whose reads may fail: `some b` is a successful byte
read, `none` a failed one (end of stream or any other read error). Each
byte read is pushed as one code point (`c as char`); the first failure
stops the loop. -/
def accumulate : List (Option Nat) → List Nat
  | [] => []
  | none :: _ => []
  | some b :: rest => b :: accumulate rest

/-- Embedding of `BorshDeserialize::deserialize_reader` for
`RemainderStr`: the loop's result is returned as `Ok` unconditionally,
exactly as in the source. -/
def deserialize_reader (stream : List (Option Nat)) :
    Except IoError (List Nat) :=
  .ok (accumulate stream)

end RemainderStr

/-- The UTF-8 bytes of the string `"string"`. -/
def stringBytes : List Nat := [115, 116, 114, 105, 110, 103]

/-- The code points of the string `"str"`. -/
def strCodePoints : List Nat := [115, 116, 114]

/-! ### Helper lemmas -/

theorem leBytes_length (w n : Nat) : (leBytes w n).length = w := by
  induction w generalizing n with
  | zero => rfl
  | succ w ih => simp [leBytes, ih]

theorem leDecode_leBytes (w n : Nat) (h : n < 2 ^ (8 * w)) :
    leDecode (leBytes w n) = n := by
  induction w generalizing n with
  | zero =>
      have : n = 0 := by simpa using h
      simp [this, leBytes, leDecode]
  | succ w ih =>
      have h2 : n / 256 < 2 ^ (8 * w) := by
        rw [Nat.div_lt_iff_lt_mul (by norm_num)]
        calc n < 2 ^ (8 * (w + 1)) := h
          _ = 2 ^ (8 * w) * 256 := by rw [Nat.mul_succ, pow_add]; norm_num
      simp only [leBytes, leDecode, ih _ h2]
      omega

theorem readExact_append (pre rest : List Nat) :
    readExact pre.length (pre ++ rest) = .ok (pre, rest) := by
  simp [readExact, List.take_left, List.drop_left]

theorem readExact_ok (n : Nat) (input pre rest : List Nat)
    (h : readExact n input = .ok (pre, rest)) :
    pre.length = n ∧ pre = input.take n ∧ rest = input.drop n := by
  unfold readExact at h
  split at h
  · rename_i hle
    refine ⟨?_, ?_, ?_⟩
    · cases h
      simp [List.length_take, Nat.min_eq_left hle]
    · cases h; rfl
    · cases h; rfl
  · cases h

theorem readItems_encode (es : Nat) (hes : 1 ≤ es) (v : List Nat)
    (hv : ∀ x ∈ v, x < 2 ^ (8 * es)) (rest : List Nat) :
    PrefixVec.readItems es v.length ((v.map (leBytes es)).flatten ++ rest) =
      .ok (v, rest) := by
  induction v with
  | nil => simp [PrefixVec.readItems]
  | cons x v ih =>
      have hx : x < 2 ^ (8 * es) := hv x (List.mem_cons_self x v)
      have hlen : (leBytes es x).length = es := leBytes_length es x
      have htail : ∀ y ∈ v, y < 2 ^ (8 * es) :=
        fun y hy => hv y (List.mem_cons_of_mem _ hy)
      have h0 : ¬ es = 0 := by omega
      simp only [List.map_cons, List.flatten_cons, List.append_assoc,
        List.length_cons]
      unfold PrefixVec.readItems
      simp only [readUpTo, List.take_left' hlen, List.drop_left' hlen, hlen,
        if_neg h0, if_pos rfl, ih htail, leDecode_leBytes es x hx, if_true]

theorem readItems_error_eq (es k : Nat) (input : List Nat) (e : IoError)
    (h : PrefixVec.readItems es k input = .error e) : e = .invalidData := by
  induction k generalizing input with
  | zero => simp [PrefixVec.readItems] at h
  | succ k ih =>
      unfold PrefixVec.readItems at h
      simp only [readUpTo] at h
      split at h
      · cases h
      · split at h
        · cases hrec : PrefixVec.readItems es k (input.drop es) with
          | ok p =>
              rw [hrec] at h
              cases h
          | error e2 =>
              rw [hrec] at h
              cases h
              exact ih _ hrec
        · cases h
          rfl

theorem readItems_ok_bytes (es k : Nat) (input items rest : List Nat)
    (h : PrefixVec.readItems es k input = .ok (items, rest)) :
    items.length * es ≤ input.length := by
  induction k generalizing input items rest with
  | zero =>
      unfold PrefixVec.readItems at h
      cases h
      simp
  | succ k ih =>
      unfold PrefixVec.readItems at h
      simp only [readUpTo] at h
      split at h
      · cases h
        simp
      · rename_i hfull
        split at h
        · rename_i hchunk
          have hesle : es ≤ input.length := by
            have := List.length_take es input
            omega
          cases hrec : PrefixVec.readItems es k (input.drop es) with
          | ok p =>
              rw [hrec] at h
              cases h
              have := ih (input.drop es) p.1 p.2 (by rw [hrec])
              simp only [List.length_drop] at this
              simp only [List.length_cons]
              calc (p.1.length + 1) * es = p.1.length * es + es := by ring
                _ ≤ (input.length - es) + es := by omega
                _ = input.length := by omega
          | error e2 =>
              rw [hrec] at h
              cases h
        · cases h

theorem accumulate_map_some (bs : List Nat) :
    RemainderStr.accumulate (bs.map some) = bs := by
  induction bs with
  | nil => rfl
  | cons b bs ih => simp [RemainderStr.accumulate, ih]

theorem accumulate_stops_at_failure (bs : List Nat) (rest : List (Option Nat)) :
    RemainderStr.accumulate (bs.map some ++ none :: rest) = bs := by
  induction bs with
  | nil => rfl
  | cons b bs ih => simp [RemainderStr.accumulate, ih]

theorem ascii_flatten (s : List Nat) (h : ∀ c ∈ s, c < 0x80) :
    (s.map utf8EncodeChar).flatten = s := by
  induction s with
  | nil => rfl
  | cons c s ih =>
      have hc : c < 0x80 := h c (List.mem_cons_self c s)
      simp [utf8EncodeChar, hc, ih (fun y hy => h y (List.mem_cons_of_mem _ hy))]

theorem string_roundtrip_aux (pw : Nat) (s : List Nat)
    (hutf : utf8Valid s = true) (hlen : s.length < 2 ^ (8 * pw)) :
    PrefixString.serialize pw s [] = (.ok (), leBytes pw s.length ++ s) ∧
    PrefixString.deserialize_reader pw (leBytes pw s.length ++ s) =
      .ok (s, []) := by
  have hmax : ¬ s.length > 2 ^ (8 * pw) - 1 := by
    have h1 : 1 ≤ 2 ^ (8 * pw) := Nat.one_le_two_pow
    omega
  constructor
  · simp [PrefixString.serialize, hmax]
  · have h1 : readExact pw (leBytes pw s.length ++ s) =
        .ok (leBytes pw s.length, s) := by
      have := readExact_append (leBytes pw s.length) s
      rwa [leBytes_length] at this
    have h2 : readExact s.length s = .ok (s, []) := by
      have := readExact_append s []
      rwa [List.append_nil] at this
    simp [PrefixString.deserialize_reader, h1, Bind.bind, Except.bind,
      leDecode_leBytes pw s.length hlen, h2, hutf]

theorem vec_roundtrip_aux (pw es : Nat) (hes : 1 ≤ es) (v : List Nat)
    (hv : ∀ x ∈ v, x < 2 ^ (8 * es)) (hlen : v.length < 2 ^ (8 * pw)) :
    PrefixVec.serialize pw es v [] =
      (.ok (), leBytes pw v.length ++ (v.map (leBytes es)).flatten) ∧
    PrefixVec.deserialize_reader pw es
        (leBytes pw v.length ++ (v.map (leBytes es)).flatten) =
      .ok (v, []) := by
  have hmax : ¬ v.length > 2 ^ (8 * pw) - 1 := by
    have h1 : 1 ≤ 2 ^ (8 * pw) := Nat.one_le_two_pow
    omega
  constructor
  · simp [PrefixVec.serialize, hmax]
  · have h1 : readExact pw (leBytes pw v.length ++ (v.map (leBytes es)).flatten) =
        .ok (leBytes pw v.length, (v.map (leBytes es)).flatten) := by
      have := readExact_append (leBytes pw v.length) ((v.map (leBytes es)).flatten)
      rwa [leBytes_length] at this
    have h2 : PrefixVec.readItems es v.length ((v.map (leBytes es)).flatten) =
        .ok (v, []) := by
      have := readItems_encode es hes v hv []
      rwa [List.append_nil] at this
    simp [PrefixVec.deserialize_reader, h1, Bind.bind, Except.bind,
      leDecode_leBytes pw v.length hlen, h2]

/-! ### Claim theorems -/

/-- Claim C1: for every supported prefix width (8/16/64-bit for the
`PrefixString` family, 8/16/32/64-bit for the `PrefixVec` family, given
here by their byte sizes) and every inner value whose byte length /
element count is representable in the prefix width (elements restricted
to fixed-width scalar types), deserializing the bytes produced by
serialize yields a value equal to the original, preserving element order
and values. -/
theorem roundtrip_encode_decode :
    (∀ pw ∈ PrefixString.widthBytes, ∀ s : List Nat,
       utf8Valid s = true → s.length ≤ 2 ^ (8 * pw) - 1 →
       ∃ out, PrefixString.serialize pw s [] = (.ok (), out) ∧
         PrefixString.deserialize_reader pw out = .ok (s, [])) ∧
    (∀ pw ∈ PrefixVec.widthBytes, ∀ es ∈ PrefixVec.scalarElemSizes,
       ∀ v : List Nat, (∀ x ∈ v, x < 2 ^ (8 * es)) →
       v.length ≤ 2 ^ (8 * pw) - 1 →
       ∃ out, PrefixVec.serialize pw es v [] = (.ok (), out) ∧
         PrefixVec.deserialize_reader pw es out = .ok (v, [])) := by
  constructor
  · intro pw _ s hutf hlen
    have hlt : s.length < 2 ^ (8 * pw) := by
      have h1 : 1 ≤ 2 ^ (8 * pw) := Nat.one_le_two_pow
      omega
    exact ⟨leBytes pw s.length ++ s, string_roundtrip_aux pw s hutf hlt⟩
  · intro pw _ es hes v hv hlen
    have hlt : v.length < 2 ^ (8 * pw) := by
      have h1 : 1 ≤ 2 ^ (8 * pw) := Nat.one_le_two_pow
      omega
    have hes1 : 1 ≤ es := by
      simp only [PrefixVec.scalarElemSizes, List.mem_cons,
        List.not_mem_nil, or_false] at hes
      omega
    exact ⟨leBytes pw v.length ++ (v.map (leBytes es)).flatten,
      vec_roundtrip_aux pw es hes1 v hv hlt⟩

/-- Witness for C1 at concrete inputs: the 3-byte string
`[115, 116, 114]` through the `u8`-prefixed string wrapper, and the
vector `[5, 6]` of `u32` elements through the `u8`-prefixed vector
wrapper. -/
theorem roundtrip_encode_decode_witness :
    (∃ out, PrefixString.serialize 1 [115, 116, 114] [] = (.ok (), out) ∧
       PrefixString.deserialize_reader 1 out = .ok ([115, 116, 114], [])) ∧
    (∃ out, PrefixVec.serialize 1 4 [5, 6] [] = (.ok (), out) ∧
       PrefixVec.deserialize_reader 1 4 out = .ok ([5, 6], [])) :=
  ⟨roundtrip_encode_decode.1 1 (by decide) [115, 116, 114] (by decide)
      (by decide),
   roundtrip_encode_decode.2 1 (by decide) 4 (by decide) [5, 6] (by decide)
      (by decide)⟩

/-- Claim C2: once the count prefix of a `PrefixVec` has been decoded as
`N`, deserialization either returns exactly `N` elements or fails with an
`InvalidData` error; in particular, when the stream ends (a zero-byte
read) before `N` full elements are available, the call fails rather than
returning a shorter sequence. -/
theorem vec_decode_exact_count_or_invalid
    (pw es : Nat) (input pb r1 : List Nat)
    (hpre : readExact pw input = .ok (pb, r1)) :
    ((∃ items rest, PrefixVec.deserialize_reader pw es input = .ok (items, rest) ∧
        items.length = leDecode pb) ∨
      PrefixVec.deserialize_reader pw es input = .error .invalidData) ∧
    (r1.length < leDecode pb * es →
      PrefixVec.deserialize_reader pw es input = .error .invalidData) := by
  constructor
  · cases hloop : PrefixVec.readItems es (leDecode pb) r1 with
    | ok p =>
        by_cases hn : p.1.length = leDecode pb
        · left
          refine ⟨p.1, p.2, ?_, hn⟩
          simp [PrefixVec.deserialize_reader, hpre, Bind.bind, Except.bind,
            hloop, hn]
        · right
          simp [PrefixVec.deserialize_reader, hpre, Bind.bind, Except.bind,
            hloop, hn]
    | error e =>
        right
        have he : e = .invalidData := readItems_error_eq es (leDecode pb) r1 e hloop
        simp [PrefixVec.deserialize_reader, hpre, Bind.bind, Except.bind,
          hloop, he]
  · intro hshort
    cases hloop : PrefixVec.readItems es (leDecode pb) r1 with
    | ok p =>
        have hbytes : p.1.length * es ≤ r1.length :=
          readItems_ok_bytes es (leDecode pb) r1 p.1 p.2 (by rw [hloop])
        have hn : ¬ p.1.length = leDecode pb := by
          intro hEq
          rw [hEq] at hbytes
          omega
        simp [PrefixVec.deserialize_reader, hpre, Bind.bind, Except.bind,
          hloop, hn]
    | error e =>
        have he : e = .invalidData := readItems_error_eq es (leDecode pb) r1 e hloop
        simp [PrefixVec.deserialize_reader, hpre, Bind.bind, Except.bind,
          hloop, he]

/-- Witness for C2 at a concrete input: prefix byte `2` declares two
4-byte elements but only one full element follows, so deserialization
fails with `InvalidData`. -/
theorem vec_decode_exact_count_or_invalid_witness :
    ((∃ items rest,
        PrefixVec.deserialize_reader 1 4 [2, 1, 0, 0, 0] = .ok (items, rest) ∧
          items.length = leDecode [2]) ∨
      PrefixVec.deserialize_reader 1 4 [2, 1, 0, 0, 0] = .error .invalidData) ∧
    ([1, 0, 0, 0].length < leDecode [2] * 4 →
      PrefixVec.deserialize_reader 1 4 [2, 1, 0, 0, 0] = .error .invalidData) :=
  vec_decode_exact_count_or_invalid 1 4 [2, 1, 0, 0, 0] [2] [1, 0, 0, 0] rfl

/-- Claim C3: for every supported width, serialize fails (with the
`InvalidData` overflow error) if and only if the length/count exceeds
the prefix type's maximum; in particular a 256-byte string or a
256-element vector overflows a `u8` prefix while 255 succeeds, the sink
accepting every write in this model. -/
theorem encode_overflow_iff :
    (∀ pw ∈ PrefixString.widthBytes, ∀ s sink : List Nat,
       (PrefixString.serialize pw s sink).1 = .error .invalidData ↔
         s.length > 2 ^ (8 * pw) - 1) ∧
    (∀ pw ∈ PrefixVec.widthBytes, ∀ es : Nat, ∀ v sink : List Nat,
       (PrefixVec.serialize pw es v sink).1 = .error .invalidData ↔
         v.length > 2 ^ (8 * pw) - 1) ∧
    (PrefixString.serialize 1 (List.replicate 256 48) []).1 =
      .error .invalidData ∧
    (PrefixString.serialize 1 (List.replicate 255 48) []).1 = .ok () ∧
    (PrefixVec.serialize 1 8 (List.replicate 256 0) []).1 =
      .error .invalidData ∧
    (PrefixVec.serialize 1 8 (List.replicate 255 0) []).1 = .ok () := by
  refine ⟨?_, ?_, ?_, ?_, ?_, ?_⟩
  · intro pw _ s sink
    unfold PrefixString.serialize
    split <;> rename_i hc <;> simp [hc]
  · intro pw _ es v sink
    unfold PrefixVec.serialize
    split <;> rename_i hc <;> simp [hc]
  · unfold PrefixString.serialize
    rw [List.length_replicate, if_pos (by norm_num)]
  · unfold PrefixString.serialize
    rw [List.length_replicate, if_neg (by norm_num)]
  · unfold PrefixVec.serialize
    rw [List.length_replicate, if_pos (by norm_num)]
  · unfold PrefixVec.serialize
    rw [List.length_replicate, if_neg (by norm_num)]

/-- Witness for C3 at concrete inputs: the empty string and the empty
vector never overflow a `u8` prefix. -/
theorem encode_overflow_iff_witness :
    ((PrefixString.serialize 1 [] []).1 = .error .invalidData ↔
      ([] : List Nat).length > 2 ^ (8 * 1) - 1) ∧
    ((PrefixVec.serialize 1 8 [] []).1 = .error .invalidData ↔
      ([] : List Nat).length > 2 ^ (8 * 1) - 1) :=
  ⟨encode_overflow_iff.1 1 (by decide) [] [],
   encode_overflow_iff.2.1 1 (by decide) 8 [] []⟩

/-- Claim C4: for every supported width, when the length/count exceeds
the prefix type's maximum, serialize returns the overflow error before
writing any bytes — the sink is returned exactly as it was passed in. -/
theorem encode_overflow_no_partial_write :
    (∀ pw ∈ PrefixString.widthBytes, ∀ s sink : List Nat,
       s.length > 2 ^ (8 * pw) - 1 →
       PrefixString.serialize pw s sink = (.error .invalidData, sink)) ∧
    (∀ pw ∈ PrefixVec.widthBytes, ∀ es : Nat, ∀ v sink : List Nat,
       v.length > 2 ^ (8 * pw) - 1 →
       PrefixVec.serialize pw es v sink = (.error .invalidData, sink)) := by
  constructor
  · intro pw _ s sink hover
    simp [PrefixString.serialize, hover]
  · intro pw _ es v sink hover
    simp [PrefixVec.serialize, hover]

/-- Witness for C4 at a concrete input: a 256-byte string with a `u8`
prefix leaves the nonempty sink `[7]` untouched, and likewise for a
256-element vector. -/
theorem encode_overflow_no_partial_write_witness :
    PrefixString.serialize 1 (List.replicate 256 48) [7] =
      (.error .invalidData, [7]) ∧
    PrefixVec.serialize 1 8 (List.replicate 256 0) [7] =
      (.error .invalidData, [7]) :=
  ⟨encode_overflow_no_partial_write.1 1 (by decide) (List.replicate 256 48) [7]
      (by rw [List.length_replicate]; norm_num),
   encode_overflow_no_partial_write.2 1 (by decide) 8 (List.replicate 256 0) [7]
      (by rw [List.length_replicate]; norm_num)⟩

/-- Claim C5: deserializing a `PrefixString`, after the little-endian
length prefix decodes to `N` and exactly `N` further bytes are read, the
call fails with `InvalidData` exactly when those `N` bytes are not valid
UTF-8, and otherwise succeeds with a string holding exactly those `N`
bytes (and the rest of the stream unconsumed). -/
theorem string_decode_utf8_check
    (pw : Nat) (input pb r1 sb r2 : List Nat)
    (hpre : readExact pw input = .ok (pb, r1))
    (hbytes : readExact (leDecode pb) r1 = .ok (sb, r2)) :
    PrefixString.deserialize_reader pw input =
      (if utf8Valid sb then .ok (sb, r2) else .error .invalidData) ∧
    sb.length = leDecode pb := by
  constructor
  · simp only [PrefixString.deserialize_reader, hpre, Bind.bind, Except.bind,
      hbytes]
  · exact (readExact_ok (leDecode pb) r1 sb r2 hbytes).1

/-- Witness for C5 at concrete inputs: `[1, 0xFF]` declares one byte that
is not valid UTF-8, so the call fails with `InvalidData`; the read byte
count is the declared length 1. -/
theorem string_decode_utf8_check_witness :
    (PrefixString.deserialize_reader 1 [1, 255] =
      (if utf8Valid [255] then .ok ([255], []) else .error .invalidData)) ∧
    ([255] : List Nat).length = leDecode [1] :=
  string_decode_utf8_check 1 [1, 255] [1] [255] [255] [] rfl rfl

/-- Claim C6: serializing the string `"string"` produces exactly
`[6, 's', 't', 'r', 'i', 'n', 'g']` (7 bytes) with the `u8` prefix,
`[6, 0, ...]` (8 bytes) with the `u16` prefix, and the count 6 as a
little-endian 64-bit integer followed by the 6 text bytes (14 bytes) with
the `u64` prefix. -/
theorem encode_string_literal_bytes :
    PrefixString.serialize 1 stringBytes [] =
      (.ok (), [6, 115, 116, 114, 105, 110, 103]) ∧
    PrefixString.serialize 2 stringBytes [] =
      (.ok (), [6, 0, 115, 116, 114, 105, 110, 103]) ∧
    PrefixString.serialize 8 stringBytes [] =
      (.ok (), [6, 0, 0, 0, 0, 0, 0, 0, 115, 116, 114, 105, 110, 103]) := by
  refine ⟨?_, ?_, ?_⟩ <;> rfl

/-- Claim C7: inside the element loop of `PrefixVec` deserialization,
a read of the per-element staging buffer that returns a non-zero byte
count different from the expected per-element size — over a byte-list
stream, a nonempty stream holding fewer than `es` bytes — fails with an
`InvalidData` error. -/
theorem vec_decode_malformed_element
    (es k : Nat) (input : List Nat)
    (hne : input ≠ []) (hshort : input.length < es) :
    PrefixVec.readItems es (k + 1) input = .error .invalidData := by
  have hlen : (input.take es).length = input.length := by
    simp [List.length_take]
    omega
  have h0 : ¬ input.length = 0 := by
    intro h
    exact hne (List.eq_nil_of_length_eq_zero h)
  have hes : ¬ input.length = es := by omega
  unfold PrefixVec.readItems
  simp only [readUpTo, hlen, if_neg h0, if_neg hes]

/-- Witness for C7 at a concrete input: with 4-byte elements, a stream
holding only the two bytes `[1, 2]` makes the element read return 2
bytes, an `InvalidData` error. -/
theorem vec_decode_malformed_element_witness :
    PrefixVec.readItems 4 1 [1, 2] = .error .invalidData :=
  vec_decode_malformed_element 4 0 [1, 2] (by decide) (by decide)

/-- Claim C8: for every `RemainderStr` whose content is pure 7-bit ASCII
(in particular the code points of "str"), serializing and then
deserializing the produced bytes returns a value equal to the original;
for non-ASCII content the round-trip is not guaranteed, because decode
accumulates each raw byte as one code point with no UTF-8 multi-byte
reassembly — witnessed by a code point for which it fails. -/
theorem remainder_ascii_roundtrip :
    (∀ s : List Nat, (∀ c ∈ s, c < 0x80) →
       RemainderStr.deserialize_reader
         ((RemainderStr.serialize s []).2.map some) = .ok s) ∧
    RemainderStr.deserialize_reader
      ((RemainderStr.serialize strCodePoints []).2.map some) =
        .ok strCodePoints ∧
    (∃ s : List Nat,
       RemainderStr.deserialize_reader
         ((RemainderStr.serialize s []).2.map some) ≠ .ok s) := by
  have hascii : ∀ s : List Nat, (∀ c ∈ s, c < 0x80) →
      RemainderStr.deserialize_reader
        ((RemainderStr.serialize s []).2.map some) = .ok s := by
    intro s hs
    simp only [RemainderStr.serialize, RemainderStr.deserialize_reader,
      List.nil_append, ascii_flatten s hs, accumulate_map_some]
  refine ⟨hascii, hascii strCodePoints (by decide), ⟨[233], ?_⟩⟩
  intro h
  have hval : RemainderStr.deserialize_reader
      ((RemainderStr.serialize [233] []).2.map some) = .ok [195, 169] := rfl
  rw [hval] at h
  exact absurd (Except.ok.inj h) (by decide)

/-- Witness for C8 at a concrete input: the single ASCII code point
`[97]` round-trips through serialize and deserialize. -/
theorem remainder_ascii_roundtrip_witness :
    RemainderStr.deserialize_reader
      ((RemainderStr.serialize [97] []).2.map some) = .ok [97] :=
  remainder_ascii_roundtrip.1 [97] (by decide)

/-- Claim C9: `RemainderStr` deserialization is total — for every input
stream it returns `Ok`, never an error; the first failed byte read (end
of stream or any other read error, both modelled by `none`) terminates
the loop, and the bytes read so far — possibly none, giving the empty
string — are returned, one code point per byte consumed. -/
theorem remainder_decode_total :
    (∀ stream : List (Option Nat), ∃ v : List Nat,
       RemainderStr.deserialize_reader stream = .ok v) ∧
    (∀ (bs : List Nat) (rest : List (Option Nat)),
       RemainderStr.deserialize_reader (bs.map some ++ none :: rest) = .ok bs) ∧
    (∀ bs : List Nat,
       RemainderStr.deserialize_reader (bs.map some) = .ok bs) ∧
    RemainderStr.deserialize_reader [] = .ok [] := by
  refine ⟨fun stream => ⟨RemainderStr.accumulate stream, rfl⟩, ?_, ?_, rfl⟩
  · intro bs rest
    simp only [RemainderStr.deserialize_reader,
      accumulate_stops_at_failure bs rest]
  · intro bs
    simp only [RemainderStr.deserialize_reader, accumulate_map_some bs]

/-- Counterexample to claim C10 as stated: the source instantiates
`prefix_string_types!` only for `u8`, `u16` and `u64`, so no 32-bit
prefix string wrapper exists. -/
theorem u32_text_wrapper_absent : 32 ∉ PrefixString.instantiatedWidths := by
  decide

/-- Claim C10, amended: the `PrefixString` family is instantiated once
per supported width, the supported widths being 8, 16 and 64 bits — with
no 32-bit member — while the `PrefixVec` family is instantiated for 8,
16, 32 and 64 bits. -/
theorem instantiated_widths_amended :
    PrefixString.instantiatedWidths = [8, 16, 64] ∧
    PrefixVec.instantiatedWidths = [8, 16, 32, 64] ∧
    32 ∈ PrefixVec.instantiatedWidths ∧
    32 ∉ PrefixString.instantiatedWidths :=
  ⟨rfl, rfl, by decide, by decide⟩

end Kaigan
